import Mathlib

/-!
# CWCG: the OBJ mesh loader

A shallow embedding of `src/common/model.hpp` (`Model::Model`, `Model::loadObj`),
followed by the properties established about it.  The functions of
`src/common/maths.cpp` compute in `float`; their arithmetic is not embedded here.

Conventions of the embedding.

* A file opened for reading is the list of characters the C stream delivers, one
  `Char` per byte; `none` stands for a path `fopen` cannot open.
* The calls into the C library made by `loadObj` (`fscanf`, `fgets`, `strcmp`)
  are modelled in the namespace `stdio`, one definition per format string.
* Text to floating point conversion is not fixed by the embedding: the `%f`
  conversion is a parameter `conv` which, given the stream at the first
  non-blank character, says which value was converted (if any) and how many
  characters were taken from the stream.  A component of a vector that no
  conversion assigned is `none`.
* `unsigned int` values are natural numbers below `2 ^ 32`, arithmetic on them
  is reduced modulo `2 ^ 32`.
* Executions that leave defined behaviour (an access outside a vector, a write
  past `lineHeader[128]`, an integer `%d` cannot represent, a loop counter that
  can never reach its bound) end in the outcome `undefined`.
-/

/-- Three components `x`, `y`, `z`, as `glm::vec3`. -/
@[ext]
structure vec3 (α : Type) where
  x : α
  y : α
  z : α
deriving DecidableEq, Repr

/-- Two components `x`, `y`, as `glm::vec2`. -/
@[ext]
structure vec2 (α : Type) where
  x : α
  y : α
deriving DecidableEq, Repr

namespace stdio

/-- The `isspace` classification of the C locale: space, `\t`, `\n`, `\v`, `\f`, `\r`. -/
def isspace (c : Char) : Bool :=
  c == Char.ofNat 32 || c == Char.ofNat 9 || c == Char.ofNat 10 ||
  c == Char.ofNat 11 || c == Char.ofNat 12 || c == Char.ofNat 13

/-- A white-space directive of a `fscanf` format (a blank or `\n` in the format), and the
skipping that precedes a `%s`, `%d` or `%f` conversion: input is read up to the first
character that is not white space. -/
def skipSpace (s : List Char) : List Char :=
  s.dropWhile isspace

/-- The call `fscanf(file, "%s", buf)`: skips white space, then stores the run of characters
up to the next white space.  `none` is the return value `EOF` (the stream ends before any
character of a token); otherwise the token stored and the stream left. -/
def scanString (s : List Char) : Option (List Char × List Char) :=
  match skipSpace s with
  | [] => none
  | c :: cs =>
    some ((c :: cs).takeWhile (fun a => !isspace a), (c :: cs).dropWhile (fun a => !isspace a))

/-- The C string a buffer holds: its characters before the first NUL. -/
def cstr (buf : List Char) : List Char :=
  buf.takeWhile (fun c => c != Char.ofNat 0)

/-- The test `strcmp(buf, lit) == 0`. -/
def strcmpZero (buf lit : List Char) : Bool :=
  cstr buf == cstr lit

/-- The call `fgets(buf, size, file)`, as the stream it leaves: at most `size - 1` characters
are read, and reading stops after a newline. -/
def fgets : Nat → List Char → List Char
  | 0, s => s
  | 1, s => s
  | _ + 2, [] => []
  | n + 2, c :: cs => if c == Char.ofNat 10 then cs else fgets (n + 1) cs

/-- Value of a run of decimal digits. -/
def digitsValue (ds : List Char) : Nat :=
  ds.foldl (fun a d => 10 * a + (d.toNat - 48)) 0

/-- The digits of a `%d` input item, after its optional sign: a non-empty run of decimal
digits.  `none` when no digit is there; otherwise the integer denoted (negated when `neg`) and
the stream left. -/
def scanDigits (neg : Bool) (body : List Char) : Option (Int × List Char) :=
  if (body.takeWhile Char.isDigit).isEmpty then none
  else
    some (if neg then - (digitsValue (body.takeWhile Char.isDigit) : Int)
      else (digitsValue (body.takeWhile Char.isDigit) : Int), body.dropWhile Char.isDigit)

/-- One `%d` conversion: white space is skipped, then an optional sign and a non-empty run of
decimal digits are read.  `none` when the input does not start an integer (matching failure,
or end of input); otherwise the integer denoted and the stream left. -/
def scanInt (s : List Char) : Option (Int × List Char) :=
  match skipSpace s with
  | [] => none
  | c :: cs =>
    if c == Char.ofNat 45 then scanDigits true cs
    else if c == Char.ofNat 43 then scanDigits false cs
    else scanDigits false (c :: cs)

/-- Storing the result of a `%d` conversion through an `unsigned int*`: an integer in the
range of `int` is stored as its value modulo `2 ^ 32`; an integer outside that range cannot be
represented and the behaviour is undefined (`none`). -/
def storeInt (n : Int) : Option Nat :=
  if -(2 : Int) ^ 31 ≤ n ∧ n < (2 : Int) ^ 31 then some (n % (2 : Int) ^ 32).toNat else none

/-- The directives occurring in the face format. -/
inductive Directive where
  | int
  | lit (c : Char)
  | space
deriving DecidableEq, Repr

/-- Result of a `fscanf` call made of `%d` conversions: the values assigned, in order, and
the stream left; or undefined behaviour. -/
inductive IntScan where
  | done (assigned : List Nat) (rest : List Char)
  | undefined
deriving DecidableEq, Repr

/-- Execution of a format made of `%d`, literal characters and white space against the
stream: directives are executed in order, and the call returns at the first directive that
fails. -/
def scanInts : List Directive → List Char → IntScan
  | [], s => .done [] s
  | .space :: ds, s => scanInts ds (skipSpace s)
  | .lit c :: ds, s =>
    match s with
    | [] => .done [] []
    | a :: s1 => if a == c then scanInts ds s1 else .done [] (a :: s1)
  | .int :: ds, s =>
    match scanInt s with
    | none => .done [] s
    | some (n, r) =>
      match storeInt n with
      | none => .undefined
      | some v =>
        match scanInts ds r with
        | .done vs r1 => .done (v :: vs) r1
        | .undefined => .undefined

/-- The format `"%d/%d/%d %d/%d/%d %d/%d/%d\n"`. -/
def faceFormat : List Directive :=
  [.int, .lit (Char.ofNat 47), .int, .lit (Char.ofNat 47), .int, .space,
   .int, .lit (Char.ofNat 47), .int, .lit (Char.ofNat 47), .int, .space,
   .int, .lit (Char.ofNat 47), .int, .lit (Char.ofNat 47), .int, .space]

/-- The `%f` conversion of the C library, a parameter of the embedding: applied to the stream
at its first non-blank character, it gives the value converted (`none` on a matching failure)
and the number of characters read from the stream. -/
abbrev FloatConv (F : Type) : Type :=
  List Char → Option F × Nat

/-- The calls `fscanf(file, "%f %f %f\n", ...)` (`k = 3`) and `fscanf(file, "%f %f\n", ...)`
(`k = 2`): the values assigned, in order, and the stream left.  The call returns at the first
conversion that fails; after the last conversion the closing white-space directive is
executed. -/
def scanFloats {F : Type} (conv : FloatConv F) : Nat → List Char → List F × List Char
  | 0, s => ([], skipSpace s)
  | k + 1, s =>
    match skipSpace s with
    | [] => ([], [])
    | c :: cs =>
      match conv (c :: cs) with
      | (none, n) => ([], (c :: cs).drop n)
      | (some x, n) =>
        (x :: (scanFloats conv k ((c :: cs).drop n)).1, (scanFloats conv k ((c :: cs).drop n)).2)

/-- A decimal numeral that `int` can hold: a non-empty run of digits with value below
`2 ^ 31`. -/
def isNumeral (ds : List Char) : Bool :=
  !ds.isEmpty && ds.all Char.isDigit && decide (digitsValue ds < 2 ^ 31)

end stdio

namespace Model

open stdio

/-- The local vectors of `loadObj`.  `faces` is a ghost counter that the source does not
have: the number of `f` records accepted so far. -/
structure ObjState (F : Type) where
  vertexIndices : List Nat
  uvIndices : List Nat
  normalIndices : List Nat
  tempVertices : List (vec3 (Option F))
  tempUVs : List (vec2 (Option F))
  tempNormals : List (vec3 (Option F))
  faces : Nat
deriving DecidableEq, Repr

/-- The state at the start of `loadObj`: all vectors empty. -/
def ObjState.init (F : Type) : ObjState F :=
  ⟨[], [], [], [], [], [], 0⟩

/-- What one iteration of the `while (true)` loop does. -/
inductive Step (F : Type) where
  | next (st : ObjState F) (rest : List Char)
  | eof (st : ObjState F)
  | malformed
  | undefined
deriving DecidableEq, Repr

/-- One iteration of the reading loop of `loadObj` (lines 148-192): read the record header
with `%s`, then dispatch on it. -/
def loopBody {F : Type} (conv : FloatConv F) (st : ObjState F) (s : List Char) : Step F :=
  match scanString s with
  | none => .eof st
  | some (lineHeader, rest) =>
    if 128 ≤ lineHeader.length then .undefined
    else if strcmpZero lineHeader [Char.ofNat 118] then
      let r := scanFloats conv 3 rest
      .next { st with tempVertices := st.tempVertices ++ [⟨r.1[0]?, r.1[1]?, r.1[2]?⟩] } r.2
    else if strcmpZero lineHeader [Char.ofNat 118, Char.ofNat 116] then
      let r := scanFloats conv 2 rest
      .next { st with tempUVs := st.tempUVs ++ [⟨r.1[0]?, r.1[1]?⟩] } r.2
    else if strcmpZero lineHeader [Char.ofNat 118, Char.ofNat 110] then
      let r := scanFloats conv 3 rest
      .next { st with tempNormals := st.tempNormals ++ [⟨r.1[0]?, r.1[1]?, r.1[2]?⟩] } r.2
    else if strcmpZero lineHeader [Char.ofNat 102] then
      match scanInts faceFormat rest with
      | .undefined => .undefined
      | .done [v0, u0, n0, v1, u1, n1, v2, u2, n2] r =>
        .next { st with
          vertexIndices := st.vertexIndices ++ [v0, v1, v2]
          uvIndices := st.uvIndices ++ [u0, u1, u2]
          normalIndices := st.normalIndices ++ [n0, n1, n2]
          faces := st.faces + 1 } r
      | .done _ _ => .malformed
    else .next st (fgets 1000 rest)

/-- How the reading loop ends. -/
inductive Parse (F : Type) where
  | eof (st : ObjState F)
  | malformed
  | undefined
  | fuel
deriving DecidableEq, Repr

/-- The reading loop `while (true)` of `loadObj`, with a bound on the number of iterations. -/
def parseLoop {F : Type} (conv : FloatConv F) : Nat → ObjState F → List Char → Parse F
  | 0, _, _ => .fuel
  | n + 1, st, s =>
    match loopBody conv st s with
    | .next st1 rest => parseLoop conv n st1 rest
    | .eof st1 => .eof st1
    | .malformed => .malformed
    | .undefined => .undefined

/-- The reading loop run from state `st` on the stream `s`.  Every iteration reads at least
one character, so `s.length + 1` iterations always suffice (`parse_ne_fuel`). -/
def parse {F : Type} (conv : FloatConv F) (st : ObjState F) (s : List Char) : Parse F :=
  parseLoop conv (s.length + 1) st s

/-- How a call of `loadObj` ends: with a return value and the three output vectors, or in
undefined behaviour. -/
inductive Outcome (F : Type) where
  | ret (res : Bool) (outVertices : List (vec3 (Option F))) (outUVs : List (vec2 (Option F)))
      (outNormals : List (vec3 (Option F)))
  | undefined
deriving DecidableEq, Repr

/-- The value `i - 1` computed in `unsigned int`. -/
def pred32 (i : Nat) : Nat :=
  (i + 2 ^ 32 - 1) % 2 ^ 32

/-- The resolution loop of `loadObj` (lines 195-207), `todo` iterations starting at corner
`i`: element accesses outside a vector are undefined behaviour. -/
def resolveLoop {F : Type} (st : ObjState F) : Nat → Nat → List (vec3 (Option F)) →
    List (vec2 (Option F)) → List (vec3 (Option F)) → Outcome F
  | 0, _, outVertices, outUVs, outNormals => .ret true outVertices outUVs outNormals
  | todo + 1, i, outVertices, outUVs, outNormals =>
    match st.vertexIndices[i]?, st.uvIndices[i]?, st.normalIndices[i]? with
    | some vertexIndex, some uvIndex, some normalIndex =>
      match st.tempVertices[pred32 vertexIndex]?, st.tempUVs[pred32 uvIndex]?,
          st.tempNormals[pred32 normalIndex]? with
      | some vertex, some uv, some normal =>
        resolveLoop st todo (i + 1) (outVertices ++ [vertex]) (outUVs ++ [uv])
          (outNormals ++ [normal])
      | _, _, _ => .undefined
    | _, _, _ => .undefined

/-- The resolution loop from corner `0`.  The counter `i` is an `unsigned int`: with
`2 ^ 32` corners or more it wraps before reaching `vertexIndices.size()` and the loop cannot
end. -/
def resolve {F : Type} (st : ObjState F) (outVertices : List (vec3 (Option F)))
    (outUVs : List (vec2 (Option F))) (outNormals : List (vec3 (Option F))) : Outcome F :=
  if st.vertexIndices.length < 2 ^ 32 then
    resolveLoop st st.vertexIndices.length 0 outVertices outUVs outNormals
  else .undefined

/-- The method `Model::loadObj`: `file` is what `fopen(path, "r")` gives, the three lists are
the contents of the output vectors at the call.  The messages printed and the `getchar()`
pause of the path that cannot open the file are not part of the embedding. -/
def loadObj {F : Type} (conv : FloatConv F) (file : Option (List Char))
    (outVertices : List (vec3 (Option F))) (outUVs : List (vec2 (Option F)))
    (outNormals : List (vec3 (Option F))) : Outcome F :=
  match file with
  | none => .ret false outVertices outUVs outNormals
  | some s =>
    match parse conv (ObjState.init F) s with
    | .eof st => resolve st outVertices outUVs outNormals
    | .malformed => .ret false outVertices outUVs outNormals
    | .undefined => .undefined
    | .fuel => .undefined

/-- The number of face records `loadObj` accepts while reading the file. -/
def facesParsed {F : Type} (conv : FloatConv F) (file : Option (List Char)) : Nat :=
  match file with
  | none => 0
  | some s =>
    match parse conv (ObjState.init F) s with
    | .eof st => st.faces
    | _ => 0

/-- The first `k` iterations of the reading loop from state `st` on the stream `s`: the state
and the stream at the top of iteration `k + 1`, when all `k` iterations reach the end of the
loop body. -/
def runSteps {F : Type} (conv : FloatConv F) : Nat → ObjState F → List Char →
    Option (ObjState F × List Char)
  | 0, st, s => some (st, s)
  | k + 1, st, s =>
    match loopBody conv st s with
    | .next st1 rest => runSteps conv k st1 rest
    | _ => none

/-- The three index vectors hold three entries per accepted face, all of them `unsigned int`
values. -/
def ObjState.Coherent {F : Type} (st : ObjState F) : Prop :=
  st.vertexIndices.length = 3 * st.faces ∧ st.uvIndices.length = 3 * st.faces ∧
  st.normalIndices.length = 3 * st.faces ∧
  (∀ k ∈ st.vertexIndices, k < 2 ^ 32) ∧ (∀ k ∈ st.uvIndices, k < 2 ^ 32) ∧
  (∀ k ∈ st.normalIndices, k < 2 ^ 32)

/-- The text of a face line with two corners only, `f p1/t1/n1 p2/t2/n2` and a newline. -/
def twoCornerFaceLine (p1 t1 n1 p2 t2 n2 : List Char) : List Char :=
  [Char.ofNat 102, Char.ofNat 32] ++ p1 ++ [Char.ofNat 47] ++ t1 ++ [Char.ofNat 47] ++ n1 ++
    [Char.ofNat 32] ++ p2 ++ [Char.ofNat 47] ++ t2 ++ [Char.ofNat 47] ++ n2 ++ [Char.ofNat 10]

/-- A line `tok ++ body` (followed by a newline) that the loader skips whole: the first token
`tok` is not empty, has no white space, fits `lineHeader` (fewer than 128 characters) and is
none of `v`, `vt`, `vn`, `f` as a C string; `body` is empty or starts with white space, has no
newline, and with its newline fits `commentBuffer` (at most 999 characters). -/
def isUnknownLine (tok body : List Char) : Bool :=
  !tok.isEmpty && tok.all (fun c => !isspace c) && decide (tok.length < 128) &&
  !strcmpZero tok [Char.ofNat 118] && !strcmpZero tok [Char.ofNat 118, Char.ofNat 116] &&
  !strcmpZero tok [Char.ofNat 118, Char.ofNat 110] && !strcmpZero tok [Char.ofNat 102] &&
  (match body with
    | [] => true
    | c :: _ => isspace c) &&
  body.all (fun c => c != Char.ofNat 10) && decide (body.length < 999)

end Model

/-- The geometry members of the class `Model`, and whether `setupBuffers` has run. -/
structure Model (F : Type) where
  vertices : List (vec3 (Option F))
  uvs : List (vec2 (Option F))
  normals : List (vec3 (Option F))
  buffersSetUp : Bool
deriving DecidableEq, Repr

/-- The constructor `Model::Model(path)`: the members start empty, `loadObj` fills them, and
`setupBuffers` runs when it returned true (its OpenGL calls are not part of the embedding).
`none` when `loadObj` has no defined outcome. -/
def Model.new {F : Type} (conv : stdio.FloatConv F) (file : Option (List Char)) :
    Option (Model F) :=
  match Model.loadObj conv file [] [] [] with
  | .ret res vertices uvs normals => some ⟨vertices, uvs, normals, res⟩
  | .undefined => none

/-- A `%f` conversion for plain decimal numerals (optional sign, digits, optional fraction),
used to run the loader on concrete files: the value is the text converted. -/
def decimalConv : stdio.FloatConv (List Char) := fun s =>
  let sign := s.takeWhile (fun c => c == Char.ofNat 45 || c == Char.ofNat 43) |>.take 1
  let s1 := s.drop sign.length
  let ip := s1.takeWhile Char.isDigit
  let s2 := s1.drop ip.length
  let fp := match s2 with
    | [] => []
    | c :: cs => if c == Char.ofNat 46 then c :: cs.takeWhile Char.isDigit else []
  if ip.isEmpty && fp.length ≤ 1 then (none, sign.length + ip.length + fp.length)
  else (some (sign ++ ip ++ fp), sign.length + ip.length + fp.length)

/-! ## Concrete files -/

namespace Example

/-- An OBJ text with three `v`, three `vt`, three `vn` records and one triangle. -/
def triangleObj : List Char :=
  ("v 0 0 0\nv 1 0 0\nv 0 1 0\n" ++ "vt 0 0\nvt 1 0\nvt 0 1\n" ++
    "vn 0 0 1\nvn 0 1 0\nvn 1 0 0\n" ++ "f 1/1/1 2/2/2 3/3/3\n").toList

/-- The three positions declared by `triangleObj`. -/
def triangleVertices : List (vec3 (Option (List Char))) :=
  [⟨some "0".toList, some "0".toList, some "0".toList⟩,
   ⟨some "1".toList, some "0".toList, some "0".toList⟩,
   ⟨some "0".toList, some "1".toList, some "0".toList⟩]

/-- The three texture coordinates declared by `triangleObj`. -/
def triangleUVs : List (vec2 (Option (List Char))) :=
  [⟨some "0".toList, some "0".toList⟩, ⟨some "1".toList, some "0".toList⟩,
   ⟨some "0".toList, some "1".toList⟩]

/-- The three normals declared by `triangleObj`. -/
def triangleNormals : List (vec3 (Option (List Char))) :=
  [⟨some "0".toList, some "0".toList, some "1".toList⟩,
   ⟨some "0".toList, some "1".toList, some "0".toList⟩,
   ⟨some "1".toList, some "0".toList, some "0".toList⟩]

/-- The state of the reading loop at the end of `triangleObj`. -/
def triangleState : Model.ObjState (List Char) :=
  ⟨[1, 2, 3], [1, 2, 3], [1, 2, 3], triangleVertices, triangleUVs, triangleNormals, 1⟩

/-- The records of `triangleObj` with the face line first and its indices permuted. -/
def faceFirstObj : List Char :=
  ("f 3/1/2 1/2/3 2/3/1\n" ++ "v 0 0 0\nv 1 0 0\nv 0 1 0\n" ++ "vt 0 0\nvt 1 0\nvt 0 1\n" ++
    "vn 0 0 1\nvn 0 1 0\nvn 1 0 0\n").toList

/-- Four positions, one texture coordinate and one normal. -/
def squareRecords : List Char :=
  "v 0 0 0\nv 1 0 0\nv 1 1 0\nv 0 1 0\nvt 0 0\nvn 0 0 1\n".toList

/-- The state of the reading loop after the six records of `squareRecords`. -/
def squareState : Model.ObjState (List Char) :=
  ⟨[], [], [],
   [⟨some "0".toList, some "0".toList, some "0".toList⟩,
    ⟨some "1".toList, some "0".toList, some "0".toList⟩,
    ⟨some "1".toList, some "1".toList, some "0".toList⟩,
    ⟨some "0".toList, some "1".toList, some "0".toList⟩],
   [⟨some "0".toList, some "0".toList⟩],
   [⟨some "0".toList, some "0".toList, some "1".toList⟩], 0⟩

/-- The mesh of the triangle on the first three positions of `squareRecords`. -/
def firstTriangleVertices : List (vec3 (Option (List Char))) :=
  [⟨some "0".toList, some "0".toList, some "0".toList⟩,
   ⟨some "1".toList, some "0".toList, some "0".toList⟩,
   ⟨some "1".toList, some "1".toList, some "0".toList⟩]

/-- Three times the texture coordinate of `squareRecords`. -/
def firstTriangleUVs : List (vec2 (Option (List Char))) :=
  [⟨some "0".toList, some "0".toList⟩, ⟨some "0".toList, some "0".toList⟩,
   ⟨some "0".toList, some "0".toList⟩]

/-- Three times the normal of `squareRecords`. -/
def firstTriangleNormals : List (vec3 (Option (List Char))) :=
  [⟨some "0".toList, some "0".toList, some "1".toList⟩,
   ⟨some "0".toList, some "0".toList, some "1".toList⟩,
   ⟨some "0".toList, some "0".toList, some "1".toList⟩]

/-- A file whose only face is the quad `f 1/1/1 2/1/1 3/1/1 4/1/1`. -/
def quadObj : List Char :=
  squareRecords ++ "f 1/1/1 2/1/1 3/1/1 4/1/1\n".toList

/-- A file with an `f` line that carries only 6 integers, followed by a line that starts
with `3/1/1`. -/
def splitFaceObj : List Char :=
  squareRecords ++ "f 1/1/1 2/1/1\n".toList ++ "3/1/1\n".toList

/-- A file with a valid face followed by an `f` line that carries only 6 integers and by a
further valid face. -/
def malformedAfterValidObj : List Char :=
  squareRecords ++ "f 1/1/1 2/1/1 3/1/1\n".toList ++ "f 1/1/1 2/1/1\n".toList ++
    "f 1/1/1 3/1/1 4/1/1\n".toList

/-- A line of 1005 characters that starts with the token `#`: `# `, 998 times `x`, then
`f 1/1` and a newline. -/
def longCommentLine : List Char :=
  "# ".toList ++ List.replicate 998 (Char.ofNat 120) ++ "f 1/1\n".toList

/-- A valid face line on the records of `squareRecords`. -/
def faceLine : List Char :=
  "f 1/1/1 2/1/1 3/1/1\n".toList

end Example

namespace stdio

theorem skipSpace_length (s : List Char) : (skipSpace s).length ≤ s.length :=
  (List.dropWhile_sublist isspace).length_le

theorem skipSpace_head {c : Char} {cs s : List Char} (h : skipSpace s = c :: cs) :
    isspace c = false := by
  induction s with
  | nil => simp [skipSpace] at h
  | cons a s ih =>
    unfold skipSpace at h ih
    rw [List.dropWhile_cons] at h
    split at h
    · exact ih h
    · rename_i ha
      simp only [List.cons.injEq] at h
      rw [← h.1]
      simpa using ha

theorem scanString_length {s tok rest : List Char} (h : scanString s = some (tok, rest)) :
    rest.length < s.length := by
  unfold scanString at h
  split at h
  · simp at h
  · rename_i c cs hc
    have hsp := skipSpace_head hc
    have hlen := skipSpace_length s
    rw [hc] at hlen
    simp only [Option.some.injEq, Prod.mk.injEq] at h
    rw [← h.2, List.dropWhile_cons, if_pos (by simp [hsp])]
    have := (List.dropWhile_sublist (fun a => !isspace a) (l := cs)).length_le
    simp only [List.length_cons] at hlen
    omega

theorem fgets_length (n : Nat) (s : List Char) : (fgets n s).length ≤ s.length := by
  induction s generalizing n with
  | nil =>
    match n with
    | 0 => simp [fgets]
    | 1 => simp [fgets]
    | _ + 2 => simp [fgets]
  | cons c cs ih =>
    match n with
    | 0 => simp [fgets]
    | 1 => simp [fgets]
    | n + 2 =>
      simp only [fgets]
      split
      · simp
      · have := ih (n + 1)
        simp only [List.length_cons]
        omega

theorem scanDigits_length {neg : Bool} {body r : List Char} {n : Int}
    (h : scanDigits neg body = some (n, r)) : r.length ≤ body.length := by
  unfold scanDigits at h
  split at h
  · simp at h
  · simp only [Option.some.injEq, Prod.mk.injEq] at h
    rw [← h.2]
    exact (List.dropWhile_sublist Char.isDigit).length_le

theorem scanInt_length {s r : List Char} {n : Int} (h : scanInt s = some (n, r)) :
    r.length ≤ s.length := by
  unfold scanInt at h
  split at h
  · simp at h
  · rename_i c cs hc
    have hlen := skipSpace_length s
    rw [hc] at hlen
    simp only [List.length_cons] at hlen
    split at h
    · have := scanDigits_length h
      omega
    split at h
    · have := scanDigits_length h
      omega
    · have := scanDigits_length h
      simp only [List.length_cons] at this
      omega

theorem scanInts_length {fmt : List Directive} {s r : List Char} {vs : List Nat}
    (h : scanInts fmt s = .done vs r) : r.length ≤ s.length := by
  induction fmt generalizing s r vs with
  | nil =>
    simp only [scanInts, IntScan.done.injEq] at h
    rw [← h.2]
  | cons d ds ih =>
    cases d with
    | space =>
      simp only [scanInts] at h
      exact le_trans (ih h) (skipSpace_length s)
    | lit c =>
      cases s with
      | nil =>
        simp only [scanInts, IntScan.done.injEq] at h
        rw [← h.2]
      | cons a s1 =>
        simp only [scanInts] at h
        split at h
        · exact le_trans (ih h) (by simp)
        · simp only [IntScan.done.injEq] at h
          rw [← h.2]
    | int =>
      simp only [scanInts] at h
      split at h
      · simp only [IntScan.done.injEq] at h
        rw [← h.2]
      · rename_i n r0 hn
        split at h
        · simp at h
        · split at h
          · rename_i vs1 r1 hrec
            simp only [IntScan.done.injEq] at h
            rw [← h.2]
            exact le_trans (ih hrec) (scanInt_length hn)
          · simp at h

theorem scanFloats_length {F : Type} (conv : FloatConv F) (k : Nat) (s : List Char) :
    (scanFloats conv k s).2.length ≤ s.length := by
  induction k generalizing s with
  | zero => exact skipSpace_length s
  | succ k ih =>
    unfold scanFloats
    have hlen := skipSpace_length s
    split
    · simp
    · rename_i c cs hc
      rw [hc] at hlen
      split
      · rename_i n hn
        simp only [List.length_drop]
        omega
      · rename_i x n hn
        have := ih ((c :: cs).drop n)
        simp only [List.length_drop] at this ⊢
        omega

end stdio

namespace Model

open stdio

theorem loopBody_length {F : Type} {conv : FloatConv F} {st st1 : ObjState F}
    {s rest : List Char} (h : loopBody conv st s = .next st1 rest) : rest.length < s.length := by
  unfold loopBody at h
  split at h
  · simp at h
  · rename_i lineHeader r0 hs
    have h0 := scanString_length hs
    split at h
    · simp at h
    split at h
    · simp only [Step.next.injEq] at h
      rw [← h.2]
      exact lt_of_le_of_lt (scanFloats_length conv 3 r0) h0
    split at h
    · simp only [Step.next.injEq] at h
      rw [← h.2]
      exact lt_of_le_of_lt (scanFloats_length conv 2 r0) h0
    split at h
    · simp only [Step.next.injEq] at h
      rw [← h.2]
      exact lt_of_le_of_lt (scanFloats_length conv 3 r0) h0
    split at h
    · split at h
      · simp at h
      · rename_i hf
        simp only [Step.next.injEq] at h
        rw [← h.2]
        exact lt_of_le_of_lt (scanInts_length hf) h0
      · simp at h
    · simp only [Step.next.injEq] at h
      rw [← h.2]
      exact lt_of_le_of_lt (fgets_length 1000 r0) h0

theorem parseLoop_fuel {F : Type} (conv : FloatConv F) (n m : Nat) (st : ObjState F)
    (s : List Char) (hn : s.length < n) (hm : s.length < m) :
    parseLoop conv n st s = parseLoop conv m st s := by
  induction n generalizing m st s with
  | zero => omega
  | succ n ih =>
    cases m with
    | zero => omega
    | succ m =>
      simp only [parseLoop]
      cases hb : loopBody conv st s with
      | next st1 rest =>
        have := loopBody_length hb
        exact ih m st1 rest (by omega) (by omega)
      | eof st1 => rfl
      | malformed => rfl
      | undefined => rfl

theorem parseLoop_ne_fuel {F : Type} (conv : FloatConv F) (n : Nat) (st : ObjState F)
    (s : List Char) (hn : s.length < n) : parseLoop conv n st s ≠ .fuel := by
  induction n generalizing st s with
  | zero => omega
  | succ n ih =>
    simp only [parseLoop]
    cases hb : loopBody conv st s with
    | next st1 rest =>
      have := loopBody_length hb
      exact ih st1 rest (by omega)
    | eof st1 => simp
    | malformed => simp
    | undefined => simp

theorem parse_ne_fuel {F : Type} (conv : FloatConv F) (st : ObjState F) (s : List Char) :
    parse conv st s ≠ .fuel :=
  parseLoop_ne_fuel conv _ st s (Nat.lt_succ_self _)

theorem parse_step {F : Type} {conv : FloatConv F} {st st1 : ObjState F} {s rest : List Char}
    (h : loopBody conv st s = .next st1 rest) : parse conv st s = parse conv st1 rest := by
  have hl := loopBody_length h
  unfold parse
  simp only [parseLoop, h]
  exact parseLoop_fuel conv _ _ st1 rest hl (Nat.lt_succ_self _)

end Model

namespace Model

open stdio

theorem parse_runSteps {F : Type} {conv : FloatConv F} {k : Nat} {st st1 : ObjState F}
    {s s1 : List Char} (h : runSteps conv k st s = some (st1, s1)) :
    parse conv st s = parse conv st1 s1 := by
  induction k generalizing st s with
  | zero =>
    simp only [runSteps, Option.some.injEq, Prod.mk.injEq] at h
    rw [h.1, h.2]
  | succ k ih =>
    simp only [runSteps] at h
    split at h
    · rename_i st2 rest hb
      rw [parse_step hb]
      exact ih h
    · simp at h

theorem resolveLoop_ret_true {F : Type} (st : ObjState F) (todo i : Nat)
    (a a1 : List (vec3 (Option F))) (b b1 : List (vec2 (Option F)))
    (c c1 : List (vec3 (Option F))) (r : Bool)
    (h : resolveLoop st todo i a b c = .ret r a1 b1 c1) :
    r = true ∧ a1.length = a.length + todo ∧ b1.length = b.length + todo ∧
      c1.length = c.length + todo := by
  induction todo generalizing i a b c with
  | zero =>
    simp only [resolveLoop, Outcome.ret.injEq] at h
    obtain ⟨h0, h1, h2, h3⟩ := h
    subst h1 h2 h3
    simp [h0]
  | succ todo ih =>
    simp only [resolveLoop] at h
    split at h
    · split at h
      · obtain ⟨h0, h1, h2, h3⟩ := ih _ _ _ _ h
        simp only [List.length_append, List.length_singleton] at h1 h2 h3
        exact ⟨h0, by omega, by omega, by omega⟩
      · simp at h
    · simp at h

theorem loadObj_false_unchanged {F : Type} {conv : FloatConv F} {file : Option (List Char)}
    {a a1 : List (vec3 (Option F))} {b b1 : List (vec2 (Option F))}
    {c c1 : List (vec3 (Option F))} (h : loadObj conv file a b c = .ret false a1 b1 c1) :
    (a1 = a ∧ b1 = b ∧ c1 = c) ∧
      ∀ (x : List (vec3 (Option F))) (y : List (vec2 (Option F))) (z : List (vec3 (Option F))),
        loadObj conv file x y z = .ret false x y z := by
  unfold loadObj at h ⊢
  cases file with
  | none =>
    simp only [Outcome.ret.injEq, true_and] at h
    exact ⟨⟨h.1.symm, h.2.1.symm, h.2.2.symm⟩, fun _ _ _ => rfl⟩
  | some s =>
    simp only at h ⊢
    cases hp : parse conv (ObjState.init F) s with
    | eof st =>
      rw [hp] at h
      simp only [resolve] at h
      split at h
      · have := (resolveLoop_ret_true _ _ _ _ _ _ _ _ _ _ h).1
        simp at this
      · simp at h
    | malformed =>
      rw [hp] at h
      simp only [Outcome.ret.injEq, true_and] at h
      exact ⟨⟨h.1.symm, h.2.1.symm, h.2.2.symm⟩, fun _ _ _ => rfl⟩
    | undefined =>
      rw [hp] at h
      simp at h
    | fuel =>
      rw [hp] at h
      simp at h

/-- C3. Failure is atomic: whenever `loadObj` returns false, the three output vectors are as
they were before the call; a `Model` constructed from such a file has empty `vertices`, `uvs`
and `normals`, and `setupBuffers` has not run. -/
theorem loadObj_failure_atomic {F : Type} (conv : FloatConv F) (file : Option (List Char))
    (outVertices outVertices1 : List (vec3 (Option F)))
    (outUVs outUVs1 : List (vec2 (Option F)))
    (outNormals outNormals1 : List (vec3 (Option F)))
    (h : loadObj conv file outVertices outUVs outNormals =
      .ret false outVertices1 outUVs1 outNormals1) :
    (outVertices1 = outVertices ∧ outUVs1 = outUVs ∧ outNormals1 = outNormals) ∧
    Model.new conv file = some ⟨[], [], [], false⟩ := by
  obtain ⟨h1, h2⟩ := loadObj_false_unchanged h
  refine ⟨h1, ?_⟩
  unfold Model.new
  rw [h2 [] [] []]

end Model

namespace stdio

theorem storeInt_lt {n : Int} {v : Nat} (h : storeInt n = some v) : v < 2 ^ 32 := by
  unfold storeInt at h
  split at h
  · simp only [Option.some.injEq] at h
    rw [← h]
    have h1 : n % (2 : Int) ^ 32 < (2 : Int) ^ 32 := Int.emod_lt_of_pos n (by norm_num)
    have h2 : 0 ≤ n % (2 : Int) ^ 32 := Int.emod_nonneg n (by norm_num)
    omega
  · simp at h

theorem scanInts_lt {fmt : List Directive} {s r : List Char} {vs : List Nat}
    (h : scanInts fmt s = .done vs r) : ∀ v ∈ vs, v < 2 ^ 32 := by
  induction fmt generalizing s r vs with
  | nil =>
    simp only [scanInts, IntScan.done.injEq] at h
    rw [← h.1]
    simp
  | cons d ds ih =>
    cases d with
    | space =>
      simp only [scanInts] at h
      exact ih h
    | lit c =>
      cases s with
      | nil =>
        simp only [scanInts, IntScan.done.injEq] at h
        rw [← h.1]
        simp
      | cons a s1 =>
        simp only [scanInts] at h
        split at h
        · exact ih h
        · simp only [IntScan.done.injEq] at h
          rw [← h.1]
          simp
    | int =>
      simp only [scanInts] at h
      split at h
      · simp only [IntScan.done.injEq] at h
        rw [← h.1]
        simp
      · split at h
        · simp at h
        · rename_i v hv
          split at h
          · rename_i vs1 r1 hrec
            simp only [IntScan.done.injEq] at h
            rw [← h.1]
            intro w hw
            simp only [List.mem_cons] at hw
            rcases hw with hw | hw
            · rw [hw]
              exact storeInt_lt hv
            · exact ih hrec w hw
          · simp at h

end stdio

namespace Model

open stdio

theorem init_coherent (F : Type) : (ObjState.init F).Coherent := by
  simp [ObjState.init, ObjState.Coherent]

theorem loopBody_coherent {F : Type} {conv : FloatConv F} {st st1 : ObjState F}
    {s rest : List Char} (h : loopBody conv st s = .next st1 rest) (hc : st.Coherent) :
    st1.Coherent := by
  unfold loopBody at h
  split at h
  · simp at h
  · split at h
    · simp at h
    split at h
    · simp only [Step.next.injEq] at h
      rw [← h.1]
      exact hc
    split at h
    · simp only [Step.next.injEq] at h
      rw [← h.1]
      exact hc
    split at h
    · simp only [Step.next.injEq] at h
      rw [← h.1]
      exact hc
    split at h
    · split at h
      · simp at h
      · rename_i v0 u0 n0 v1 u1 n1 v2 u2 n2 r hf
        have hlt := scanInts_lt hf
        simp only [List.mem_cons, List.mem_singleton, List.not_mem_nil, or_false,
          forall_eq_or_imp, forall_eq] at hlt
        obtain ⟨a0, a1, a2, a3, a4, a5, a6, a7, a8⟩ := hlt
        obtain ⟨c1, c2, c3, c4, c5, c6⟩ := hc
        simp only [Step.next.injEq] at h
        rw [← h.1]
        refine ⟨?_, ?_, ?_, ?_, ?_, ?_⟩
        · simp only [List.length_append, List.length_cons, List.length_nil]
          omega
        · simp only [List.length_append, List.length_cons, List.length_nil]
          omega
        · simp only [List.length_append, List.length_cons, List.length_nil]
          omega
        · intro k hk
          simp only [List.mem_append, List.mem_cons, List.mem_singleton, List.not_mem_nil,
            or_false] at hk
          rcases hk with hk | hk | hk | hk
          · exact c4 k hk
          · rw [hk]; exact a0
          · rw [hk]; exact a3
          · rw [hk]; exact a6
        · intro k hk
          simp only [List.mem_append, List.mem_cons, List.mem_singleton, List.not_mem_nil,
            or_false] at hk
          rcases hk with hk | hk | hk | hk
          · exact c5 k hk
          · rw [hk]; exact a1
          · rw [hk]; exact a4
          · rw [hk]; exact a7
        · intro k hk
          simp only [List.mem_append, List.mem_cons, List.mem_singleton, List.not_mem_nil,
            or_false] at hk
          rcases hk with hk | hk | hk | hk
          · exact c6 k hk
          · rw [hk]; exact a2
          · rw [hk]; exact a5
          · rw [hk]; exact a8
      · simp at h
    · simp only [Step.next.injEq] at h
      rw [← h.1]
      exact hc

theorem parseLoop_coherent {F : Type} {conv : FloatConv F} {n : Nat} {st st1 : ObjState F}
    {s : List Char} (h : parseLoop conv n st s = .eof st1) (hc : st.Coherent) :
    st1.Coherent := by
  induction n generalizing st s with
  | zero => simp [parseLoop] at h
  | succ n ih =>
    simp only [parseLoop] at h
    split at h
    · rename_i st2 rest hb
      exact ih h (loopBody_coherent hb hc)
    · rename_i st2 hb
      simp only [Parse.eof.injEq] at h
      unfold loopBody at hb
      split at hb
      · simp only [Step.eof.injEq] at hb
        rw [← h, ← hb]
        exact hc
      · split at hb
        · simp at hb
        split at hb
        · simp at hb
        split at hb
        · simp at hb
        split at hb
        · simp at hb
        split at hb
        · split at hb <;> simp at hb
        · simp at hb
    · simp at h
    · simp at h

theorem parse_coherent {F : Type} {conv : FloatConv F} {st : ObjState F} {s : List Char}
    (h : parse conv (ObjState.init F) s = .eof st) : st.Coherent :=
  parseLoop_coherent h (init_coherent F)

/-- C4. Mesh shape invariant: when `loadObj` succeeds on output vectors that were empty at
the call, `vertices`, `uvs` and `normals` have the same length, that length is 3 times the
number of face records parsed, and so it is a multiple of 3. -/
theorem loadObj_mesh_shape {F : Type} (conv : FloatConv F) (file : Option (List Char))
    (vertices : List (vec3 (Option F))) (uvs : List (vec2 (Option F)))
    (normals : List (vec3 (Option F)))
    (h : loadObj conv file [] [] [] = .ret true vertices uvs normals) :
    vertices.length = uvs.length ∧ uvs.length = normals.length ∧
    vertices.length = 3 * facesParsed conv file ∧ vertices.length % 3 = 0 := by
  unfold loadObj at h
  cases file with
  | none => simp at h
  | some s =>
    simp only at h
    cases hp : parse conv (ObjState.init F) s with
    | eof st =>
      rw [hp] at h
      have hc := parse_coherent hp
      simp only [resolve] at h
      split at h
      · obtain ⟨_, h1, h2, h3⟩ := resolveLoop_ret_true _ _ _ _ _ _ _ _ _ _ h
        simp only [List.length_nil, Nat.zero_add] at h1 h2 h3
        have hf : facesParsed conv (some s) = st.faces := by
          simp [facesParsed, hp]
        rw [hf, h1, h2, h3, hc.1]
        exact ⟨rfl, rfl, rfl, by omega⟩
      · simp at h
    | malformed =>
      rw [hp] at h
      simp at h
    | undefined =>
      rw [hp] at h
      simp at h
    | fuel =>
      rw [hp] at h
      simp at h

end Model

namespace Model

open stdio

theorem pred32_eq {k : Nat} (h1 : 1 ≤ k) (h2 : k < 2 ^ 32) : pred32 k = k - 1 := by
  unfold pred32
  have h : k + 2 ^ 32 - 1 = (k - 1) + 2 ^ 32 := by omega
  rw [h, Nat.add_mod_right, Nat.mod_eq_of_lt (by omega)]

theorem resolveLoop_spec {F : Type} (st : ObjState F) (hc : st.Coherent)
    (hv : ∀ k ∈ st.vertexIndices, 1 ≤ k ∧ k ≤ st.tempVertices.length)
    (hu : ∀ k ∈ st.uvIndices, 1 ≤ k ∧ k ≤ st.tempUVs.length)
    (hn : ∀ k ∈ st.normalIndices, 1 ≤ k ∧ k ≤ st.tempNormals.length)
    (todo i : Nat) (hi : i + todo = st.vertexIndices.length)
    (a : List (vec3 (Option F))) (b : List (vec2 (Option F))) (c : List (vec3 (Option F))) :
    ∃ vs us ns, resolveLoop st todo i a b c = .ret true (a ++ vs) (b ++ us) (c ++ ns) ∧
      vs.map some = (st.vertexIndices.drop i).map (fun k => st.tempVertices[k - 1]?) ∧
      us.map some = (st.uvIndices.drop i).map (fun k => st.tempUVs[k - 1]?) ∧
      ns.map some = (st.normalIndices.drop i).map (fun k => st.tempNormals[k - 1]?) := by
  obtain ⟨c1, c2, c3, c4, c5, c6⟩ := hc
  induction todo generalizing i a b c with
  | zero =>
    refine ⟨[], [], [], by simp [resolveLoop], ?_, ?_, ?_⟩
    · rw [List.drop_of_length_le (by omega)]; rfl
    · rw [List.drop_of_length_le (by omega)]; rfl
    · rw [List.drop_of_length_le (by omega)]; rfl
  | succ todo ih =>
    have hiv : i < st.vertexIndices.length := by omega
    have hiu : i < st.uvIndices.length := by omega
    have hin : i < st.normalIndices.length := by omega
    have mv := List.getElem_mem hiv
    have mu := List.getElem_mem hiu
    have mn := List.getElem_mem hin
    have bv : st.vertexIndices[i] - 1 < st.tempVertices.length := by
      have := hv _ mv
      omega
    have bu : st.uvIndices[i] - 1 < st.tempUVs.length := by
      have := hu _ mu
      omega
    have bn : st.normalIndices[i] - 1 < st.tempNormals.length := by
      have := hn _ mn
      omega
    obtain ⟨vs, us, ns, e, ev, eu, en⟩ := ih (i + 1) (by omega)
      (a ++ [st.tempVertices[st.vertexIndices[i] - 1]])
      (b ++ [st.tempUVs[st.uvIndices[i] - 1]])
      (c ++ [st.tempNormals[st.normalIndices[i] - 1]])
    refine ⟨st.tempVertices[st.vertexIndices[i] - 1] :: vs,
      st.tempUVs[st.uvIndices[i] - 1] :: us, st.tempNormals[st.normalIndices[i] - 1] :: ns,
      ?_, ?_, ?_, ?_⟩
    · simp only [resolveLoop, List.getElem?_eq_getElem hiv, List.getElem?_eq_getElem hiu,
        List.getElem?_eq_getElem hin, pred32_eq (hv _ mv).1 (c4 _ mv),
        pred32_eq (hu _ mu).1 (c5 _ mu), pred32_eq (hn _ mn).1 (c6 _ mn),
        List.getElem?_eq_getElem bv, List.getElem?_eq_getElem bu, List.getElem?_eq_getElem bn]
      rw [e]
      simp
    · rw [List.drop_eq_getElem_cons hiv]
      simp only [List.map_cons, ev, List.getElem?_eq_getElem bv]
    · rw [List.drop_eq_getElem_cons hiu]
      simp only [List.map_cons, eu, List.getElem?_eq_getElem bu]
    · rw [List.drop_eq_getElem_cons hin]
      simp only [List.map_cons, en, List.getElem?_eq_getElem bn]

/-- C5. Index resolution is 1-based and order preserving.  Let the reading loop reach the
end of the file in state `st` (no malformed face), with fewer than `2 ^ 32` corners and every
face index between 1 and the number of records read of its attribute type, wherever the face
lines stand among the other lines.  Then `loadObj` returns true, no element access is out of
range, and corner by corner, in face order, `vertices[i]` is `tempVertices[vertexIndices[i] - 1]`,
`uvs[i]` is `tempUVs[uvIndices[i] - 1]` and `normals[i]` is `tempNormals[normalIndices[i] - 1]`. -/
theorem loadObj_resolves_indices {F : Type} (conv : FloatConv F) (s : List Char)
    (st : ObjState F) (hparse : parse conv (ObjState.init F) s = .eof st)
    (hsize : st.vertexIndices.length < 2 ^ 32)
    (hv : ∀ k ∈ st.vertexIndices, 1 ≤ k ∧ k ≤ st.tempVertices.length)
    (hu : ∀ k ∈ st.uvIndices, 1 ≤ k ∧ k ≤ st.tempUVs.length)
    (hn : ∀ k ∈ st.normalIndices, 1 ≤ k ∧ k ≤ st.tempNormals.length) :
    ∃ vertices uvs normals,
      loadObj conv (some s) [] [] [] = .ret true vertices uvs normals ∧
      vertices.map some = st.vertexIndices.map (fun k => st.tempVertices[k - 1]?) ∧
      uvs.map some = st.uvIndices.map (fun k => st.tempUVs[k - 1]?) ∧
      normals.map some = st.normalIndices.map (fun k => st.tempNormals[k - 1]?) := by
  obtain ⟨vs, us, ns, e, ev, eu, en⟩ := resolveLoop_spec st (parse_coherent hparse) hv hu hn
    st.vertexIndices.length 0 (by omega) [] [] []
  refine ⟨vs, us, ns, ?_, by simpa using ev, by simpa using eu, by simpa using en⟩
  simp only [loadObj, hparse, resolve, if_pos hsize, e, List.nil_append]

end Model

namespace stdio

theorem takeWhile_append_stop {p : Char → Bool} {l : List Char} (c : Char) (tail : List Char)
    (hl : ∀ x ∈ l, p x = true) (hc : p c = false) :
    (l ++ c :: tail).takeWhile p = l ∧ (l ++ c :: tail).dropWhile p = c :: tail := by
  induction l with
  | nil => simp [List.takeWhile_cons, List.dropWhile_cons, hc]
  | cons a l ih =>
    have ha : p a = true := hl a (List.mem_cons_self a l)
    have := ih (fun x hx => hl x (List.mem_cons_of_mem a hx))
    simp [List.takeWhile_cons, List.dropWhile_cons, ha, this]

theorem isspace_of_isDigit {c : Char} (h : c.isDigit = true) : isspace c = false := by
  cases hs : isspace c with
  | false => rfl
  | true =>
    exfalso
    simp only [isspace, Bool.or_eq_true, beq_iff_eq] at hs
    rcases hs with ((((hs | hs) | hs) | hs) | hs) | hs <;> rw [hs] at h <;> revert h <;> decide

theorem not_sign_of_isDigit {c : Char} (h : c.isDigit = true) :
    (c == Char.ofNat 45) = false ∧ (c == Char.ofNat 43) = false := by
  constructor
  · cases hs : c == Char.ofNat 45 with
    | false => rfl
    | true =>
      exfalso
      rw [beq_iff_eq] at hs
      rw [hs] at h
      revert h
      decide
  · cases hs : c == Char.ofNat 43 with
    | false => rfl
    | true =>
      exfalso
      rw [beq_iff_eq] at hs
      rw [hs] at h
      revert h
      decide

theorem isNumeral_iff {ds : List Char} :
    isNumeral ds = true ↔ ds ≠ [] ∧ (∀ c ∈ ds, c.isDigit = true) ∧ digitsValue ds < 2 ^ 31 := by
  simp [isNumeral, and_assoc]

theorem skipSpace_numeral {ds : List Char} (h : isNumeral ds = true) (tail : List Char) :
    skipSpace (ds ++ tail) = ds ++ tail := by
  obtain ⟨h0, h1, _⟩ := isNumeral_iff.1 h
  cases ds with
  | nil => exact absurd rfl h0
  | cons d ds =>
    have := isspace_of_isDigit (h1 d (List.mem_cons_self d ds))
    simp [skipSpace, List.dropWhile_cons, this]

theorem skipSpace_cons_space {c : Char} (h : isspace c = true) (s : List Char) :
    skipSpace (c :: s) = skipSpace s := by
  simp [skipSpace, List.dropWhile_cons, h]

theorem skipSpace_idem (s : List Char) : skipSpace (skipSpace s) = skipSpace s := by
  induction s with
  | nil => rfl
  | cons a s ih =>
    cases ha : isspace a with
    | true => rw [skipSpace_cons_space ha, ih]
    | false =>
      have : skipSpace (a :: s) = a :: s := by simp [skipSpace, List.dropWhile_cons, ha]
      rw [this, this]

theorem scanInt_skipSpace (s : List Char) : scanInt (skipSpace s) = scanInt s := by
  unfold scanInt
  rw [skipSpace_idem]

theorem storeInt_numeral {ds : List Char} (h : isNumeral ds = true) :
    storeInt (digitsValue ds : Int) = some (digitsValue ds) := by
  obtain ⟨_, _, h2⟩ := isNumeral_iff.1 h
  unfold storeInt
  have hlt : ((digitsValue ds : Nat) : Int) < (2 : Int) ^ 31 := by exact_mod_cast h2
  have h0 : (0 : Int) ≤ (digitsValue ds : Int) := Int.ofNat_nonneg _
  rw [if_pos ⟨by omega, hlt⟩]
  have : (digitsValue ds : Int) % (2 : Int) ^ 32 = (digitsValue ds : Int) :=
    Int.emod_eq_of_lt h0 (by omega)
  rw [this]
  simp

theorem scanInt_numeral {ds : List Char} (h : isNumeral ds = true) {c : Char}
    (hc : c.isDigit = false) (tail : List Char) :
    scanInt (ds ++ c :: tail) = some ((digitsValue ds : Int), c :: tail) := by
  obtain ⟨h0, h1, _⟩ := isNumeral_iff.1 h
  have hsk := skipSpace_numeral h (c :: tail)
  obtain ⟨ht, hd⟩ := takeWhile_append_stop (p := Char.isDigit) c tail h1 hc
  cases ds with
  | nil => exact absurd rfl h0
  | cons d ds =>
    have hdig := h1 d (List.mem_cons_self d ds)
    obtain ⟨s1, s2⟩ := not_sign_of_isDigit hdig
    unfold scanInt
    rw [hsk]
    simp only [List.cons_append, s1, s2, Bool.false_eq_true, if_false]
    simp only [List.cons_append] at ht hd
    unfold scanDigits
    rw [ht, hd]
    simp

theorem scanInts_int_of {fmt : List Directive} {s r0 r : List Char} {n : Int} {v : Nat}
    {vs : List Nat} (hs : scanInt s = some (n, r0)) (hst : storeInt n = some v)
    (hrec : scanInts fmt r0 = .done vs r) :
    scanInts (.int :: fmt) s = .done (v :: vs) r := by
  rw [scanInts]
  split
  · rename_i hnone
    rw [hs] at hnone
    exact absurd hnone (by simp)
  · rename_i n1 r1 hsome
    rw [hs] at hsome
    simp only [Option.some.injEq, Prod.mk.injEq] at hsome
    obtain ⟨hn, hr⟩ := hsome
    subst hn hr
    split
    · rename_i hnone
      rw [hst] at hnone
      exact absurd hnone (by simp)
    · rename_i v1 hsome
      rw [hst] at hsome
      simp only [Option.some.injEq] at hsome
      subst hsome
      rw [hrec]

theorem scanInts_int_numeral {fmt : List Directive} {ds : List Char}
    (h : isNumeral ds = true) {c : Char} (hc : c.isDigit = false) {tail r : List Char}
    {vs : List Nat} (hrec : scanInts fmt (c :: tail) = .done vs r) :
    scanInts (.int :: fmt) (ds ++ c :: tail) = .done (digitsValue ds :: vs) r :=
  scanInts_int_of (scanInt_numeral h hc tail) (storeInt_numeral h) hrec

theorem scanInts_int_space_numeral {fmt : List Directive} {w : Char} (hw : isspace w = true)
    {ds : List Char} (h : isNumeral ds = true) {c : Char} (hc : c.isDigit = false)
    {tail r : List Char} {vs : List Nat} (hrec : scanInts fmt (c :: tail) = .done vs r) :
    scanInts (.int :: fmt) (w :: (ds ++ c :: tail)) = .done (digitsValue ds :: vs) r := by
  refine scanInts_int_of ?_ (storeInt_numeral h) hrec
  rw [← scanInt_skipSpace, skipSpace_cons_space hw, scanInt_skipSpace]
  exact scanInt_numeral h hc tail

theorem scanInts_lit {fmt : List Directive} {c : Char} {s : List Char} {x : IntScan}
    (hrec : scanInts fmt s = x) : scanInts (.lit c :: fmt) (c :: s) = x := by
  simp only [scanInts, beq_self_eq_true, if_true, hrec]

theorem scanInts_space {fmt : List Directive} {c : Char} (hc : isspace c = true)
    {s : List Char} {x : IntScan} (hrec : scanInts fmt (skipSpace s) = x) :
    scanInts (.space :: fmt) (c :: s) = x := by
  simp only [scanInts, skipSpace_cons_space hc, hrec]

theorem scanInts_int_none {fmt : List Directive} {s : List Char} (h : scanInt s = none) :
    scanInts (.int :: fmt) s = .done [] s := by
  simp only [scanInts, h]

theorem scanInts_two_corners {p1 t1 n1 p2 t2 n2 : List Char}
    (h1 : isNumeral p1 = true) (h2 : isNumeral t1 = true) (h3 : isNumeral n1 = true)
    (h4 : isNumeral p2 = true) (h5 : isNumeral t2 = true) (h6 : isNumeral n2 = true)
    {rest : List Char} (hrest : scanInt rest = none) :
    scanInts faceFormat
      (Char.ofNat 32 :: (p1 ++ Char.ofNat 47 :: (t1 ++ Char.ofNat 47 :: (n1 ++ Char.ofNat 32 ::
        (p2 ++ Char.ofNat 47 :: (t2 ++ Char.ofNat 47 :: (n2 ++ Char.ofNat 10 :: rest))))))) =
    .done [digitsValue p1, digitsValue t1, digitsValue n1, digitsValue p2, digitsValue t2,
      digitsValue n2] (skipSpace rest) := by
  have e0 : scanInts [.int, .lit (Char.ofNat 47), .int, .lit (Char.ofNat 47), .int, .space]
      (skipSpace rest) = .done [] (skipSpace rest) :=
    scanInts_int_none (by rw [scanInt_skipSpace]; exact hrest)
  have e1 := scanInts_int_numeral h6 (c := Char.ofNat 10) (by decide)
    (scanInts_space (c := Char.ofNat 10) (by decide) e0)
  have e2 := scanInts_int_numeral h5 (c := Char.ofNat 47) (by decide) (scanInts_lit e1)
  have e3 := scanInts_int_numeral h4 (c := Char.ofNat 47) (by decide) (scanInts_lit e2)
  have e4 := scanInts_int_numeral h3 (c := Char.ofNat 32) (by decide)
    (scanInts_space (c := Char.ofNat 32) (by decide)
      (by rw [skipSpace_numeral h4]; exact e3))
  have e5 := scanInts_int_numeral h2 (c := Char.ofNat 47) (by decide) (scanInts_lit e4)
  exact scanInts_int_space_numeral (w := Char.ofNat 32) (by decide) h1 (c := Char.ofNat 47)
    (by decide) (scanInts_lit e5)

end stdio

namespace stdio

theorem scanString_token {tok : List Char} (h0 : tok ≠ [])
    (h1 : ∀ c ∈ tok, isspace c = false) {c : Char} (hc : isspace c = true) (tail : List Char) :
    scanString (tok ++ c :: tail) = some (tok, c :: tail) := by
  obtain ⟨ht, hd⟩ := takeWhile_append_stop (p := fun a => !isspace a) (l := tok) c tail
    (fun x hx => by simp [h1 x hx]) (by simp [hc])
  cases tok with
  | nil => exact absurd rfl h0
  | cons t ts =>
    have hsp : skipSpace (t :: ts ++ c :: tail) = t :: ts ++ c :: tail := by
      simp [skipSpace, List.dropWhile_cons, h1 t (List.mem_cons_self t ts)]
    unfold scanString
    rw [hsp]
    simp only [List.cons_append] at ht hd ⊢
    rw [ht, hd]

theorem fgets_line (n : Nat) (body rest : List Char) (hlen : body.length ≤ n)
    (hnl : ∀ c ∈ body, c ≠ Char.ofNat 10) :
    fgets (n + 2) (body ++ Char.ofNat 10 :: rest) = rest := by
  induction body generalizing n with
  | nil => simp [fgets]
  | cons b bs ih =>
    cases n with
    | zero => simp at hlen
    | succ n =>
      have hb : (b == Char.ofNat 10) = false := by
        simpa using hnl b (List.mem_cons_self b bs)
      simp only [List.cons_append, fgets, hb, Bool.false_eq_true, if_false]
      exact ih n (by simpa using hlen) (fun c hc => hnl c (List.mem_cons_of_mem b hc))

end stdio

namespace Model

open stdio

theorem loopBody_two_corners {F : Type} (conv : FloatConv F) (st : ObjState F)
    {p1 t1 n1 p2 t2 n2 : List Char}
    (h1 : isNumeral p1 = true) (h2 : isNumeral t1 = true) (h3 : isNumeral n1 = true)
    (h4 : isNumeral p2 = true) (h5 : isNumeral t2 = true) (h6 : isNumeral n2 = true)
    {rest : List Char} (hrest : scanInt rest = none) :
    loopBody conv st (twoCornerFaceLine p1 t1 n1 p2 t2 n2 ++ rest) = .malformed := by
  have hs : scanString (twoCornerFaceLine p1 t1 n1 p2 t2 n2 ++ rest) =
      some ([Char.ofNat 102], Char.ofNat 32 :: (p1 ++ Char.ofNat 47 :: (t1 ++ Char.ofNat 47 ::
        (n1 ++ Char.ofNat 32 :: (p2 ++ Char.ofNat 47 :: (t2 ++ Char.ofNat 47 ::
          (n2 ++ Char.ofNat 10 :: rest))))))) := by
    have := @scanString_token [Char.ofNat 102] (by simp) (by decide)
      (Char.ofNat 32) (by decide) (p1 ++ Char.ofNat 47 :: (t1 ++ Char.ofNat 47 ::
        (n1 ++ Char.ofNat 32 :: (p2 ++ Char.ofNat 47 :: (t2 ++ Char.ofNat 47 ::
          (n2 ++ Char.ofNat 10 :: rest))))))
    simpa [twoCornerFaceLine] using this
  have hv : strcmpZero [Char.ofNat 102] [Char.ofNat 118] = false := by decide
  have hvt : strcmpZero [Char.ofNat 102] [Char.ofNat 118, Char.ofNat 116] = false := by decide
  have hvn : strcmpZero [Char.ofNat 102] [Char.ofNat 118, Char.ofNat 110] = false := by decide
  have hf : strcmpZero [Char.ofNat 102] [Char.ofNat 102] = true := by decide
  unfold loopBody
  rw [hs]
  simp only [List.length_singleton, hv, hvt, hvn, hf, scanInts_two_corners h1 h2 h3 h4 h5 h6 hrest]
  simp

theorem parse_malformed {F : Type} {conv : FloatConv F} {st : ObjState F} {s : List Char}
    (h : loopBody conv st s = .malformed) : parse conv st s = .malformed := by
  simp only [parse, parseLoop, h]

theorem loopBody_unknown_line {F : Type} (conv : FloatConv F) (st : ObjState F)
    {tok body : List Char} (h : isUnknownLine tok body = true) (rest : List Char) :
    loopBody conv st (tok ++ body ++ Char.ofNat 10 :: rest) = .next st rest := by
  simp only [isUnknownLine, Bool.and_eq_true, Bool.not_eq_true', List.isEmpty_eq_false,
    List.all_eq_true, decide_eq_true_eq, bne_iff_ne, ne_eq] at h
  obtain ⟨⟨⟨⟨⟨⟨⟨⟨⟨h0, h1⟩, h2⟩, hv⟩, hvt⟩, hvn⟩, hf⟩, hb⟩, hnl⟩, hlen⟩ := h
  have hs : scanString (tok ++ body ++ Char.ofNat 10 :: rest) =
      some (tok, body ++ Char.ofNat 10 :: rest) := by
    rw [List.append_assoc]
    cases body with
    | nil => exact scanString_token h0 h1 (by decide) rest
    | cons b bs => exact scanString_token h0 h1 (by simpa using hb) _
  have hg : fgets 1000 (body ++ Char.ofNat 10 :: rest) = rest :=
    fgets_line 998 body rest (by omega) hnl
  unfold loopBody
  rw [hs]
  simp only [hv, hvt, hvn, hf, hg, if_neg (Nat.not_le.2 h2), Bool.false_eq_true, if_false]

/-- C2, amended.  Let the reading loop arrive, at the top of an iteration, at a line
`f p1/t1/n1 p2/t2/n2` that carries only 6 integers, and let the text after that line not
begin, after white space, with an integer.  Then `loadObj` returns false and the output
vectors are as they were, and a `Model` constructed from the file has no geometry. -/
theorem loadObj_two_corner_face_fails {F : Type} (conv : FloatConv F) (file rest : List Char)
    (k : Nat) (st : ObjState F) (p1 t1 n1 p2 t2 n2 : List Char)
    (hnum : isNumeral p1 = true ∧ isNumeral t1 = true ∧ isNumeral n1 = true ∧
      isNumeral p2 = true ∧ isNumeral t2 = true ∧ isNumeral n2 = true)
    (hreach : runSteps conv k (ObjState.init F) file =
      some (st, twoCornerFaceLine p1 t1 n1 p2 t2 n2 ++ rest))
    (hrest : scanInt rest = none)
    (outVertices : List (vec3 (Option F))) (outUVs : List (vec2 (Option F)))
    (outNormals : List (vec3 (Option F))) :
    loadObj conv (some file) outVertices outUVs outNormals =
      .ret false outVertices outUVs outNormals ∧
    Model.new conv (some file) = some ⟨[], [], [], false⟩ := by
  obtain ⟨h1, h2, h3, h4, h5, h6⟩ := hnum
  have hp : parse conv (ObjState.init F) file = .malformed := by
    rw [parse_runSteps hreach]
    exact parse_malformed (loopBody_two_corners conv st h1 h2 h3 h4 h5 h6 hrest)
  constructor
  · simp only [loadObj, hp]
  · simp only [Model.new, loadObj, hp]

/-- C6, amended.  A line made of a first token `tok` that is none of `v`, `vt`, `vn`, `f` and
has fewer than 128 characters, followed by at most 998 further characters and a newline, is
inert when it stands where the reading loop is at the top of an iteration: with the line
inserted before `rest`, the reading loop ends the same way with the same vectors read and the
same number of faces, and `loadObj` has the same outcome. -/
theorem unknown_line_inert {F : Type} (conv : FloatConv F) (pre tok body rest : List Char)
    (k : Nat) (st : ObjState F) (hline : isUnknownLine tok body = true)
    (hwith : runSteps conv k (ObjState.init F) (pre ++ (tok ++ body ++ [Char.ofNat 10]) ++ rest) =
      some (st, tok ++ body ++ [Char.ofNat 10] ++ rest))
    (hwithout : runSteps conv k (ObjState.init F) (pre ++ rest) = some (st, rest)) :
    parse conv (ObjState.init F) (pre ++ (tok ++ body ++ [Char.ofNat 10]) ++ rest) =
      parse conv (ObjState.init F) (pre ++ rest) ∧
    ∀ (outVertices : List (vec3 (Option F))) (outUVs : List (vec2 (Option F)))
      (outNormals : List (vec3 (Option F))),
      loadObj conv (some (pre ++ (tok ++ body ++ [Char.ofNat 10]) ++ rest))
          outVertices outUVs outNormals =
        loadObj conv (some (pre ++ rest)) outVertices outUVs outNormals := by
  have hp : parse conv (ObjState.init F) (pre ++ (tok ++ body ++ [Char.ofNat 10]) ++ rest) =
      parse conv (ObjState.init F) (pre ++ rest) := by
    rw [parse_runSteps hwith, parse_runSteps hwithout]
    have hb := loopBody_unknown_line conv st hline rest
    have he : tok ++ body ++ [Char.ofNat 10] ++ rest = tok ++ body ++ Char.ofNat 10 :: rest := by
      simp
    rw [he]
    exact parse_step hb
  refine ⟨hp, fun a b c => ?_⟩
  simp only [loadObj, hp]

end Model

namespace Example

open stdio Model

/-- C1, at the failing input: on a file whose only face is the quad
`f 1/1/1 2/1/1 3/1/1 4/1/1`, `loadObj` returns true, with the triangle of the first three
corners as mesh. -/
theorem loadObj_accepts_quad :
    loadObj decimalConv (some quadObj) [] [] [] =
      .ret true firstTriangleVertices firstTriangleUVs firstTriangleNormals := by
  decide

/-- C2, counterexample: an `f` line with only 6 integers, followed by a line that starts with
`3/1/1`, does not make `loadObj` fail: it returns true with a mesh of three corners. -/
theorem loadObj_two_corner_face_completed_by_next_line :
    loadObj decimalConv (some splitFaceObj) [] [] [] =
      .ret true firstTriangleVertices firstTriangleUVs firstTriangleNormals := by
  decide

end Example

namespace Model

open stdio Example

/-- Witness of C2 as amended: in `malformedAfterValidObj` the loop reaches the line
`f 1/1/1 2/1/1` after seven records, the next line starts with `f`, and the load fails. -/
theorem loadObj_two_corner_face_fails_witness :
    ((isNumeral "1".toList = true ∧ isNumeral "1".toList = true ∧ isNumeral "1".toList = true ∧
        isNumeral "2".toList = true ∧ isNumeral "1".toList = true ∧
        isNumeral "1".toList = true) ∧
      runSteps decimalConv 7 (ObjState.init (List Char)) malformedAfterValidObj =
        some ({ squareState with
            vertexIndices := [1, 2, 3], uvIndices := [1, 1, 1], normalIndices := [1, 1, 1],
            faces := 1 },
          twoCornerFaceLine "1".toList "1".toList "1".toList "2".toList "1".toList "1".toList ++
            "f 1/1/1 3/1/1 4/1/1\n".toList) ∧
      scanInt "f 1/1/1 3/1/1 4/1/1\n".toList = none) ∧
    (loadObj decimalConv (some malformedAfterValidObj) [] [] [] = .ret false [] [] [] ∧
      Model.new decimalConv (some malformedAfterValidObj) = some ⟨[], [], [], false⟩) :=
  ⟨⟨by decide, by decide, by decide⟩,
    loadObj_two_corner_face_fails decimalConv malformedAfterValidObj
      "f 1/1/1 3/1/1 4/1/1\n".toList 7
      { squareState with
        vertexIndices := [1, 2, 3], uvIndices := [1, 1, 1], normalIndices := [1, 1, 1],
        faces := 1 }
      "1".toList "1".toList "1".toList "2".toList "1".toList "1".toList
      (by decide) (by decide) (by decide) [] [] []⟩

/-- Witness of C3: a malformed face after valid `v`, `vt`, `vn` and `f` records; `loadObj`
returns false and output vectors that were not empty at the call are unchanged. -/
theorem loadObj_failure_atomic_witness :
    loadObj decimalConv (some malformedAfterValidObj) firstTriangleVertices [] [] =
      .ret false firstTriangleVertices [] [] ∧
    ((firstTriangleVertices = firstTriangleVertices ∧
        ([] : List (vec2 (Option (List Char)))) = [] ∧
        ([] : List (vec3 (Option (List Char)))) = []) ∧
      Model.new decimalConv (some malformedAfterValidObj) = some ⟨[], [], [], false⟩) :=
  ⟨by decide,
    loadObj_failure_atomic decimalConv (some malformedAfterValidObj) firstTriangleVertices
      firstTriangleVertices [] [] [] [] (by decide)⟩

/-- Witness of C4: the one-triangle file loads, with three entries in each output vector. -/
theorem loadObj_mesh_shape_witness :
    loadObj decimalConv (some triangleObj) [] [] [] =
      .ret true triangleVertices triangleUVs triangleNormals ∧
    (triangleVertices.length = triangleUVs.length ∧
      triangleUVs.length = triangleNormals.length ∧
      triangleVertices.length = 3 * facesParsed decimalConv (some triangleObj) ∧
      triangleVertices.length % 3 = 0) :=
  ⟨by decide,
    loadObj_mesh_shape decimalConv (some triangleObj) triangleVertices triangleUVs
      triangleNormals (by decide)⟩

/-- Witness of C5: the file with three `v`, three `vt`, three `vn` and the face
`f 1/1/1 2/2/2 3/3/3` yields exactly the three declared positions in order; with the face
line first and permuted indices, the corners follow the indices of the face. -/
theorem loadObj_resolves_indices_witness :
    (parse decimalConv (ObjState.init (List Char)) triangleObj = .eof triangleState ∧
      triangleState.vertexIndices.length < 2 ^ 32 ∧
      (∀ k ∈ triangleState.vertexIndices, 1 ≤ k ∧ k ≤ triangleState.tempVertices.length) ∧
      (∀ k ∈ triangleState.uvIndices, 1 ≤ k ∧ k ≤ triangleState.tempUVs.length) ∧
      (∀ k ∈ triangleState.normalIndices, 1 ≤ k ∧ k ≤ triangleState.tempNormals.length)) ∧
    (∃ vertices uvs normals,
      loadObj decimalConv (some triangleObj) [] [] [] = .ret true vertices uvs normals ∧
      vertices.map some =
        triangleState.vertexIndices.map (fun k => triangleState.tempVertices[k - 1]?) ∧
      uvs.map some = triangleState.uvIndices.map (fun k => triangleState.tempUVs[k - 1]?) ∧
      normals.map some =
        triangleState.normalIndices.map (fun k => triangleState.tempNormals[k - 1]?)) ∧
    loadObj decimalConv (some triangleObj) [] [] [] =
      .ret true triangleVertices triangleUVs triangleNormals ∧
    loadObj decimalConv (some faceFirstObj) [] [] [] =
      .ret true
        [⟨some "0".toList, some "1".toList, some "0".toList⟩,
         ⟨some "0".toList, some "0".toList, some "0".toList⟩,
         ⟨some "1".toList, some "0".toList, some "0".toList⟩]
        [⟨some "0".toList, some "0".toList⟩, ⟨some "1".toList, some "0".toList⟩,
         ⟨some "0".toList, some "1".toList⟩]
        [⟨some "0".toList, some "1".toList, some "0".toList⟩,
         ⟨some "1".toList, some "0".toList, some "0".toList⟩,
         ⟨some "0".toList, some "0".toList, some "1".toList⟩] :=
  ⟨⟨by decide, by decide, by decide, by decide, by decide⟩,
    loadObj_resolves_indices decimalConv triangleObj triangleState (by decide) (by decide)
      (by decide) (by decide) (by decide),
    by decide, by decide⟩

set_option maxRecDepth 100000 in
/-- C6, counterexample: the line `longCommentLine` starts with the token `#`, and inserting
it between the records of `squareRecords` and a valid face line turns a successful load into
a failed one. -/
theorem long_unknown_line_not_inert :
    scanString longCommentLine =
      some ("#".toList, Char.ofNat 32 :: (List.replicate 998 (Char.ofNat 120) ++ "f 1/1\n".toList)) ∧
    loadObj decimalConv (some (squareRecords ++ faceLine)) [] [] [] =
      .ret true firstTriangleVertices firstTriangleUVs firstTriangleNormals ∧
    loadObj decimalConv (some (squareRecords ++ longCommentLine ++ faceLine)) [] [] [] =
      .ret false [] [] [] := by
  refine ⟨by decide, by decide, by decide⟩

/-- Witness of C6 as amended: a `#` line inserted before the face line of a file. -/
theorem unknown_line_inert_witness :
    (isUnknownLine "#".toList " a comment, then f 1/1".toList = true ∧
      runSteps decimalConv 6 (ObjState.init (List Char))
          (squareRecords ++ ("#".toList ++ " a comment, then f 1/1".toList ++ [Char.ofNat 10]) ++
            faceLine) =
        some (squareState,
          "#".toList ++ " a comment, then f 1/1".toList ++ [Char.ofNat 10] ++ faceLine) ∧
      runSteps decimalConv 6 (ObjState.init (List Char)) (squareRecords ++ faceLine) =
        some (squareState, faceLine)) ∧
    (parse decimalConv (ObjState.init (List Char))
        (squareRecords ++ ("#".toList ++ " a comment, then f 1/1".toList ++ [Char.ofNat 10]) ++
          faceLine) =
      parse decimalConv (ObjState.init (List Char)) (squareRecords ++ faceLine) ∧
    ∀ (outVertices : List (vec3 (Option (List Char)))) (outUVs : List (vec2 (Option (List Char))))
      (outNormals : List (vec3 (Option (List Char)))),
      loadObj decimalConv
          (some (squareRecords ++
            ("#".toList ++ " a comment, then f 1/1".toList ++ [Char.ofNat 10]) ++ faceLine))
          outVertices outUVs outNormals =
        loadObj decimalConv (some (squareRecords ++ faceLine)) outVertices outUVs outNormals) :=
  ⟨⟨by decide, by decide, by decide⟩,
    unknown_line_inert decimalConv squareRecords "#".toList " a comment, then f 1/1".toList
      faceLine 6 squareState (by decide) (by decide) (by decide)⟩

end Model
